import Mathlib

/-!
Shallow embedding of the lowering engine in `src/TypeScriptParser.ts`
(the OneLang TypeScript-to-schema converter), together with theorems
checking the specification text against it.

The TypeScript class `TypeScriptParser` walks an already-parsed,
type-resolved syntax tree and produces a neutral schema
(`KSLangSchema`, referred to as `ks` in the source).  We embed the
input syntax-tree shapes as inductive types, the output schema as
inductive types and structures, and each `convert*` method as a Lean
function.  Two implicit channels of the JavaScript code are made
explicit:

* console diagnostics (`logNodeError`) become a `List String` carried
  in each return value, in emission order;
* JavaScript runtime exceptions (reading a property of `undefined`)
  become `Except String`, since they abort the whole conversion.

JavaScript `undefined` and `null` both become `Option.none`: the code
never distinguishes them when reading the produced schema.
-/

namespace OneLang

/-! ## Name normalization (`nameToKS`) -/

/-- Character test modelling `"A" <= c && c <= "Z"` from `nameToKS`. -/
def isUpperAZ (c : Char) : Prop := 'A' ≤ c ∧ c ≤ 'Z'

instance : DecidablePred isUpperAZ := fun c => by unfold isUpperAZ; infer_instance

/-- Character test modelling
`"a" <= c && c <= "z" || c === "_" || "0" <= c && c <= "9"` from `nameToKS`. -/
def isPassThrough (c : Char) : Prop := ('a' ≤ c ∧ c ≤ 'z') ∨ c = '_' ∨ ('0' ≤ c ∧ c ≤ '9')

instance : DecidablePred isPassThrough := fun c => by unfold isPassThrough; infer_instance

/-- Diagnostic text logged by `nameToKS` for a dropped character
(quotes around the offending character elided). -/
def invalidCharMsg (c : Char) (name : String) : String :=
  s!"Invalid character ({c}) in name: {name}."

/-- The character loop of `nameToKS`: `res` is the accumulated `result`
string (as a character list) and `ds` the diagnostics logged so far.
An uppercase letter is lowercased, preceded by an underscore when
`result` is nonempty; lowercase letters, underscore and digits pass
through; anything else is dropped with a diagnostic. -/
def nameToKSAux (orig : String) : List Char → List Char → List String → List Char × List String
  | [], res, ds => (res, ds)
  | c :: cs, res, ds =>
    if isUpperAZ c then
      nameToKSAux orig cs (res ++ (if res = [] then [] else ['_']) ++ [c.toLower]) ds
    else if isPassThrough c then
      nameToKSAux orig cs (res ++ [c]) ds
    else
      nameToKSAux orig cs res (ds ++ [invalidCharMsg c orig])

/-- Embeds `nameToKS` from `TypeScriptParser.ts`: normalizes a name to
lower_snake_case.  Returns the normalized name together with the
diagnostics logged for dropped characters. -/
def nameToKS (name : String) : String × List String :=
  let r := nameToKSAux name name.toList [] []
  (String.mk r.1, r.2)

/-! ## The produced schema (`KSLangSchema`) -/

/-- The `ks.PrimitiveType` enumeration. -/
inductive PrimitiveType where
  | Int32
  | String
  | Boolean
  | Void
  | Array
  | Class
deriving DecidableEq, Repr

/-- The `ks.Type` record: a `type` tag, an optional `className` (only
for `Class`), and optional generic `typeArguments` (only attached in
the `Array`/`Class` branch of `convertTsType`). -/
inductive KSType where
  | mk (type : PrimitiveType) (className : Option String) (typeArguments : Option (List KSType))

/-- Field accessor for the tag of a `ks.Type`. -/
def KSType.type : KSType → PrimitiveType
  | ⟨t, _, _⟩ => t

/-- Field accessor for the class name of a `ks.Type`. -/
def KSType.className : KSType → Option String
  | ⟨_, c, _⟩ => c

/-- Field accessor for the generic arguments of a `ks.Type`. -/
def KSType.typeArguments : KSType → Option (List KSType)
  | ⟨_, _, a⟩ => a

/-- The `ks.Expression` tagged union produced by `convertExpression`.
Child positions hold `Option Expression` because a failed child
lowering yields `null` in that position. -/
inductive Expression where
  | Call (method : Option Expression) (arguments : List (Option Expression))
  | Binary (left : Option Expression) (right : Option Expression) (operator : String)
  | PropertyAccess (object : Option Expression) (propertyName : Option Expression)
  | Identifier (text : String)
  | New (cls : Option Expression) (arguments : List (Option Expression))
  | Conditional (condition : Option Expression) (whenTrue : Option Expression)
      (whenFalse : Option Expression)
  | Literal (literalType : String) (value : String)
  | Parenthesized (expression : Option Expression)
  | Unary (unaryType : String) (operator : Option String) (operand : Option Expression)
  | ArrayLiteral (items : List (Option Expression))

mutual
/-- The `ks.Statement` tagged union produced by `convertStatement`.
The `Variable` case is `ks.VariableDeclaration`; `Foreach`/`For` hold
their item variable as an optional `Variable` statement, as produced
by `convertInitializer`. -/
inductive Statement where
  | If (condition : Option Expression) (thenBlock : Block) (elseBlock : Option Block)
  | Return (expression : Option Expression)
  | Throw (expression : Option Expression)
  | ExpressionStmt (expression : Option Expression)
  | Variable (variableName : String) (initializer : Option Expression)
  | While (condition : Option Expression) (body : Block)
  | Foreach (itemVariable : Option Statement) (items : Option Expression) (body : Block)
  | For (itemVariable : Option Statement) (condition : Option Expression)
      (incrementor : Option Expression) (body : Block)

/-- The `ks.Block` record: an ordered statement list.  Entries are
`Option Statement` because an unsupported statement contributes a
`null` entry (see `convertStatement`). -/
inductive Block where
  | mk (statements : List (Option Statement))
end

/-- Field accessor for the statement list of a `ks.Block`. -/
def Block.statements : Block → List (Option Statement)
  | ⟨s⟩ => s

/-- The `ks.Visibility` enumeration. -/
inductive Visibility where
  | Public
  | Protected
  | Private
deriving DecidableEq, Repr

/-- The `ks.MethodParameter` record. -/
structure MethodParameter where
  name : String
  type : KSType

/-- The `ks.Field` record; `defaultValue` is the verbatim initializer
source text, when present. -/
structure Field where
  type : KSType
  visibility : Visibility
  defaultValue : Option String

/-- The `ks.Method` record. -/
structure Method where
  returns : KSType
  parameters : List MethodParameter
  body : Block

/-- The `ks.Constructor` record. -/
structure Constructor where
  parameters : List MethodParameter
  body : Block

/-- The `ks.Class` record.  The string-keyed JavaScript objects
`fields` and `methods` are embedded as association lists in insertion
order (keys are unique because insertion goes through `mapSet`). -/
structure Class where
  fields : List (String × Field)
  methods : List (String × Method)
  constructor : Option Constructor

/-- One member of a `ks.Enum`. -/
structure EnumValue where
  name : String

/-- The `ks.Enum` record. -/
structure Enum where
  values : List EnumValue

/-- The `ks.SchemaFile` record. -/
structure SchemaFile where
  enums : List (String × Enum)
  classes : List (String × Class)

/-- Assignment `m[k] = v` on a string-keyed JavaScript object embedded
as an association list: an existing key keeps its position and gets
the new value, a new key is appended. -/
def mapSet {α : Type} (m : List (String × α)) (k : String) (v : α) : List (String × α) :=
  if m.any (fun kv => kv.1 = k) then
    m.map (fun kv => if kv.1 = k then (k, v) else kv)
  else
    m ++ [(k, v)]

/-! ## The input syntax tree

The parts of the TypeScript AST (and the `ts-simple-ast` accessors)
that `TypeScriptParser` reads.  A node kind the parser does not
dispatch on is represented by an `other` constructor carrying
`ts.SyntaxKind[node.kind]`, the kind name string the code uses in its
diagnostics and its keyword probe. -/

/-- A resolved `ts.Type` as the code reads it: `typeText` models
`(<any>tsType).intrinsicName || tsType.symbol.name`, and
`typeArguments` models the optional `(<any>tsType).typeArguments`. -/
inductive TsType where
  | mk (typeText : String) (typeArguments : Option (List TsType))

/-- Field accessor for the canonical name of a resolved type. -/
def TsType.typeText : TsType → String
  | ⟨t, _⟩ => t

/-- Field accessor for the generic arguments of a resolved type. -/
def TsType.typeArguments : TsType → Option (List TsType)
  | ⟨_, a⟩ => a

/-- The unary operator token kinds `convertExpression` dispatches on
(`ts.SyntaxKind.PlusPlusToken` and friends). -/
inductive TsUnaryOperator where
  | PlusPlusToken
  | MinusMinusToken
  | PlusToken
  | MinusToken
  | TildeToken
  | ExclamationToken
deriving DecidableEq, Repr

/-- The `ts.Expression` shapes `convertExpression` dispatches on.
`BinaryExpression` carries `operatorToken.getText()`; the two boolean
keyword nodes carry no payload because the code only calls
`getText()` on them; `other` is any remaining `ts.SyntaxKind`. -/
inductive TsExpr where
  | CallExpression (expression : TsExpr) (arguments : List TsExpr)
  | BinaryExpression (left : TsExpr) (operatorText : String) (right : TsExpr)
  | PropertyAccessExpression (expression : TsExpr) (name : TsExpr)
  | ElementAccessExpression (expression : TsExpr) (argumentExpression : TsExpr)
  | Identifier (text : String)
  | NewExpression (expression : TsExpr) (arguments : List TsExpr)
  | ConditionalExpression (condition : TsExpr) (whenTrue : TsExpr) (whenFalse : TsExpr)
  | StringLiteral (text : String)
  | NumericLiteral (text : String)
  | TrueKeyword
  | FalseKeyword
  | NullKeyword
  | ParenthesizedExpression (expression : TsExpr)
  | PostfixUnaryExpression (operator : TsUnaryOperator) (operand : TsExpr)
  | PrefixUnaryExpression (operator : TsUnaryOperator) (operand : TsExpr)
  | ArrayLiteralExpression (elements : List TsExpr)
  | other (kindName : String)

/-- A `ts.VariableDeclaration`: `name` is `varDecl.name.getText()`. -/
structure TsVariableDeclaration where
  name : String
  initializer : Option TsExpr

/-- A `ts.ForInitializer`: either a `VariableDeclarationList` or some
other node kind (carrying its kind name for the diagnostic). -/
inductive TsForInitializer where
  | VariableDeclarationList (declarations : List TsVariableDeclaration)
  | otherInitializer (kindName : String)

mutual
/-- The `ts.Statement` shapes `convertStatement` dispatches on;
`other` is any remaining `ts.SyntaxKind`.  Statement positions that
feed `convertBlock` are typed `TsBlockLike`. -/
inductive TsStatement where
  | IfStatement (expression : TsExpr) (thenStatement : TsBlockLike)
      (elseStatement : Option TsBlockLike)
  | ReturnStatement (expression : Option TsExpr)
  | ThrowStatement (expression : TsExpr)
  | ExpressionStatement (expression : TsExpr)
  | VariableStatement (declarations : List TsVariableDeclaration)
  | WhileStatement (expression : TsExpr) (statement : TsBlockLike)
  | ForOfStatement (initializer : TsForInitializer) (expression : TsExpr)
      (statement : TsBlockLike)
  | ForStatement (initializer : Option TsForInitializer) (condition : Option TsExpr)
      (incrementor : Option TsExpr) (statement : TsBlockLike)
  | other (kindName : String)

/-- A node passed to `convertBlock`: either a node with a `statements`
member (a brace-delimited `ts.BlockLike`) or a single bare statement. -/
inductive TsBlockLike where
  | blockNode (statements : List TsStatement)
  | bareStatement (s : TsStatement)
end

/-- JavaScript `String.prototype.toLowerCase` on the ASCII kind names
the code probes (`kindName.toLowerCase()`). -/
def toLowerCase (s : String) : String := String.mk (s.toList.map Char.toLower)

/-- The `flattenArray` helper of `TypeScriptParser.ts`
(`[].concat.apply([], arrays)`). -/
def flattenArray {α : Type} (arrays : List (List α)) : List α := arrays.flatten

/-! ## Expression lowering (`convertExpression`) -/

/-- Diagnostic text of the `convertExpression` fallthrough branch. -/
def unexpectedExpressionMsg (kindName : String) : String :=
  s!"Unexpected expression kind \"{kindName}\"."

mutual
/-- Embeds `convertExpression`: lowers a `ts.Expression` to an
optional `ks.Expression` plus diagnostics.  The result is `none`
exactly when the code returns `null` (unsupported kind). -/
def convertExpression : TsExpr → Option Expression × List String
  | .CallExpression f args =>
    let m := convertExpression f
    let as_ := convertExpressionList args
    (some (.Call m.1 as_.1), m.2 ++ as_.2)
  | .BinaryExpression l op r =>
    let lc := convertExpression l
    let rc := convertExpression r
    (some (.Binary lc.1 rc.1 op), lc.2 ++ rc.2)
  | .PropertyAccessExpression obj nm =>
    let oc := convertExpression obj
    let nc := convertExpression nm
    (some (.PropertyAccess oc.1 nc.1), oc.2 ++ nc.2)
  | .ElementAccessExpression obj arg =>
    let oc := convertExpression obj
    let ac := convertExpression arg
    (some (.PropertyAccess oc.1 ac.1), oc.2 ++ ac.2)
  | .Identifier t => (some (.Identifier t), [])
  | .NewExpression cls args =>
    let cc := convertExpression cls
    let as_ := convertExpressionList args
    (some (.New cc.1 as_.1), cc.2 ++ as_.2)
  | .ConditionalExpression c t f =>
    let cc := convertExpression c
    let tc := convertExpression t
    let fc := convertExpression f
    (some (.Conditional cc.1 tc.1 fc.1), cc.2 ++ tc.2 ++ fc.2)
  | .StringLiteral t => (some (.Literal "string" t), [])
  | .NumericLiteral t => (some (.Literal "numeric" t), [])
  | .TrueKeyword => (some (.Literal "boolean" "true"), [])
  | .FalseKeyword => (some (.Literal "boolean" "false"), [])
  | .NullKeyword => (some (.Literal "null" "null"), [])
  | .ParenthesizedExpression e =>
    let ec := convertExpression e
    (some (.Parenthesized ec.1), ec.2)
  | .PostfixUnaryExpression op e =>
    let ec := convertExpression e
    (some (.Unary "postfix"
      (match op with
       | .PlusPlusToken => some "++"
       | .MinusMinusToken => some "--"
       | _ => none) ec.1), ec.2)
  | .PrefixUnaryExpression op e =>
    let ec := convertExpression e
    (some (.Unary "prefix"
      (match op with
       | .PlusPlusToken => some "++"
       | .MinusMinusToken => some "--"
       | .PlusToken => some "+"
       | .MinusToken => some "-"
       | .TildeToken => some "~"
       | .ExclamationToken => some "!") ec.1), ec.2)
  | .ArrayLiteralExpression elems =>
    let ec := convertExpressionList elems
    (some (.ArrayLiteral ec.1), ec.2)
  | .other kindName =>
    match ["this", "super"].find? (fun x => toLowerCase kindName = x ++ "keyword") with
    | some keyword => (some (.Identifier keyword), [])
    | none => (none, [unexpectedExpressionMsg kindName])

/-- Lowers an argument/element list (`list.map(x => this.convertExpression(x))`),
collecting diagnostics left to right. -/
def convertExpressionList : List TsExpr → List (Option Expression) × List String
  | [] => ([], [])
  | e :: es =>
    let x := convertExpression e
    let xs := convertExpressionList es
    (x.1 :: xs.1, x.2 ++ xs.2)
end

/-- Models the `typeof tsExpr === "undefined"` guard of
`convertExpression` for optional expression positions. -/
def convertExpressionOpt : Option TsExpr → Option Expression × List String
  | none => (none, [])
  | some e => convertExpression e

/-! ## Type lowering (`convertTsType`) -/

mutual
/-- Embeds `convertTsType`: maps the canonical type name to the closed
`ks.PrimitiveType` vocabulary, normalizes a class name, and lowers
generic arguments recursively. -/
def convertTsType : TsType → KSType × List String
  | .mk typeText typeArgs =>
    if typeText = "number" then (⟨.Int32, none, none⟩, [])
    else if typeText = "string" then (⟨.String, none, none⟩, [])
    else if typeText = "boolean" then (⟨.Boolean, none, none⟩, [])
    else if typeText = "void" then (⟨.Void, none, none⟩, [])
    else
      let isArray := typeText = "Array"
      let cn : Option String × List String :=
        if typeText = "Array" then (none, [])
        else
          let n := nameToKS typeText
          (some n.1, n.2)
      let ta : Option (List KSType) × List String :=
        match typeArgs with
        | none => (none, [])
        | some args =>
          let ts_ := convertTsTypeList args
          (some ts_.1, ts_.2)
      (⟨if isArray then .Array else .Class, cn.1, ta.1⟩, cn.2 ++ ta.2)

/-- Lowers a generic-argument list (`typeArgs.map(x => this.convertTsType(x))`),
collecting diagnostics left to right. -/
def convertTsTypeList : List TsType → List KSType × List String
  | [] => ([], [])
  | t :: ts_ =>
    let x := convertTsType t
    let xs := convertTsTypeList ts_
    (x.1 :: xs.1, x.2 ++ xs.2)
end

/-! ## Statement lowering (`convertStatement`, `convertBlock`) -/

/-- Embeds `convertVariableDeclaration`: a `ks.VariableDeclaration`
with the raw declarator name text and the lowered initializer. -/
def convertVariableDeclaration (d : TsVariableDeclaration) : Statement × List String :=
  let i := convertExpressionOpt d.initializer
  (.Variable d.name i.1, i.2)

/-- Diagnostic text for a multi-declarator loop initializer. -/
def multipleDeclMsg : String :=
  "Multiple declarations are not supported as for of initializers."

/-- Diagnostic text for an unsupported loop initializer shape. -/
def unsupportedInitializerMsg (kindName : String) : String :=
  s!"{kindName} is not supported yet as for of initializer."

/-- Embeds `convertInitializer`.  The function has no guard for an
absent (`undefined`) initializer: it reads `initializer.kind`
unconditionally, so an absent initializer raises a JavaScript
`TypeError`, modelled as `Except.error`.  Likewise an empty
declaration list would read `declarations[0].name` of `undefined`. -/
def convertInitializer : Option TsForInitializer → Except String (Option Statement × List String)
  | none => .error "TypeError: cannot read initializer.kind of undefined"
  | some (.VariableDeclarationList decls) =>
    match decls with
    | [] => .error "TypeError: cannot read varDecl.name of undefined"
    | [d] =>
      let v := convertVariableDeclaration d
      .ok (some v.1, v.2)
    | d :: _ :: _ =>
      let v := convertVariableDeclaration d
      .ok (some v.1, multipleDeclMsg :: v.2)
  | some (.otherInitializer kindName) => .ok (none, [unsupportedInitializerMsg kindName])

/-- Diagnostic text of the `convertStatement` fallthrough branch. -/
def unexpectedStatementMsg (kindName : String) : String :=
  s!"Unexpected statement kind \"{kindName}\"."

/-- Lowers the declarator list of a variable statement
(`declarationList.declarations.map(x => this.convertVariableDeclaration(x))`). -/
def convertVariableDeclarationList :
    List TsVariableDeclaration → List (Option Statement) × List String
  | [] => ([], [])
  | d :: ds =>
    let v := convertVariableDeclaration d
    let vs := convertVariableDeclarationList ds
    (some v.1 :: vs.1, v.2 ++ vs.2)

mutual
/-- Embeds `convertStatement`: lowers one `ts.Statement` to a sequence
of optional `ks.Statement` entries plus diagnostics.  The final
`return ksStmts || [ksStmt]` makes the fallthrough branch return the
one-entry sequence `[none]` (JavaScript `[null]`). -/
def convertStatement : TsStatement → Except String (List (Option Statement) × List String)
  | .IfStatement cond thenS elseS =>
    let c := convertExpression cond
    match convertBlock thenS with
    | .error e => .error e
    | .ok tb =>
      match convertBlockOpt elseS with
      | .error e => .error e
      | .ok eb => .ok ([some (.If c.1 tb.1 eb.1)], c.2 ++ tb.2 ++ eb.2)
  | .ReturnStatement e =>
    let ec := convertExpressionOpt e
    .ok ([some (.Return ec.1)], ec.2)
  | .ThrowStatement e =>
    let ec := convertExpression e
    .ok ([some (.Throw ec.1)], ec.2)
  | .ExpressionStatement e =>
    let ec := convertExpression e
    .ok ([some (.ExpressionStmt ec.1)], ec.2)
  | .VariableStatement decls => .ok (convertVariableDeclarationList decls)
  | .WhileStatement cond body =>
    let c := convertExpression cond
    match convertBlock body with
    | .error e => .error e
    | .ok b => .ok ([some (.While c.1 b.1)], c.2 ++ b.2)
  | .ForOfStatement init items body =>
    match convertInitializer (some init) with
    | .error e => .error e
    | .ok iv =>
      let it := convertExpression items
      match convertBlock body with
      | .error e => .error e
      | .ok b => .ok ([some (.Foreach iv.1 it.1 b.1)], iv.2 ++ it.2 ++ b.2)
  | .ForStatement init cond inc body =>
    match convertInitializer init with
    | .error e => .error e
    | .ok iv =>
      let c := convertExpressionOpt cond
      let i := convertExpressionOpt inc
      match convertBlock body with
      | .error e => .error e
      | .ok b => .ok ([some (.For iv.1 c.1 i.1 b.1)], iv.2 ++ c.2 ++ i.2 ++ b.2)
  | .other kindName => .ok ([none], [unexpectedStatementMsg kindName])

/-- Lowers a statement sequence
(`tsBlock.statements.map(x => this.convertStatement(x))`), keeping the
per-statement result sequences separate. -/
def convertStatementList :
    List TsStatement → Except String (List (List (Option Statement)) × List String)
  | [] => .ok ([], [])
  | s :: ss =>
    match convertStatement s with
    | .error e => .error e
    | .ok r =>
      match convertStatementList ss with
      | .error e => .error e
      | .ok rs => .ok (r.1 :: rs.1, r.2 ++ rs.2)

/-- Embeds `convertBlock` on a present node: the sequence form lowers
every statement and flattens, the bare form wraps the single lowered
statement sequence directly. -/
def convertBlock : TsBlockLike → Except String (Block × List String)
  | .blockNode ss =>
    match convertStatementList ss with
    | .error e => .error e
    | .ok rs => .ok (⟨flattenArray rs.1⟩, rs.2)
  | .bareStatement s =>
    match convertStatement s with
    | .error e => .error e
    | .ok r => .ok (⟨r.1⟩, r.2)

/-- Models the `typeof tsBlock === "undefined"` guard of `convertBlock`
for optional block positions (the `else` branch of an `if`). -/
def convertBlockOpt : Option TsBlockLike → Except String (Option Block × List String)
  | none => .ok (none, [])
  | some b =>
    match convertBlock b with
    | .error e => .error e
    | .ok r => .ok (some r.1, r.2)
end

/-! ## Schema building (`createSchemaFromSourceFile`)

The `ts-simple-ast` accessors the builder uses are embedded as plain
data: a declaration is a record of exactly what the code reads from
it.  A method or constructor body is `Option TsBlockLike` because
`getBody()` can be `undefined`, in which case reading `.compilerNode`
raises a `TypeError`. -/

/-- A `SimpleAst.ParameterDeclaration` as read by `convertParameter`:
`name` is `getName()`, `type` is the resolved `getType().compilerType`. -/
structure TsParameterDeclaration where
  name : String
  type : TsType

/-- An instance property as read by the field loop: `scope` is
`getScope()` and `initializerText` is `getInitializer().getText()`
when an initializer is present.  `isPropertyOrParameterDecl` models
the `instanceof` filter that skips other member kinds. -/
structure TsPropertyDeclaration where
  name : String
  type : TsType
  scope : String
  initializerText : Option String
  isPropertyOrParameterDecl : Bool

/-- An instance method as read by the method loop. -/
structure TsMethodDeclaration where
  name : String
  returnType : TsType
  parameters : List TsParameterDeclaration
  body : Option TsBlockLike

/-- A constructor declaration as read by the constructor code. -/
structure TsConstructorDeclaration where
  parameters : List TsParameterDeclaration
  body : Option TsBlockLike

/-- An enum member (`getName()`). -/
structure TsEnumMember where
  name : String

/-- An enum declaration (`getName()`, `getMembers()`). -/
structure TsEnumDeclaration where
  name : String
  members : List TsEnumMember

/-- A class declaration (`getName()`, `getInstanceProperties()`,
`getInstanceMethods()`, `getConstructors()`). -/
structure TsClassDeclaration where
  name : String
  instanceProperties : List TsPropertyDeclaration
  instanceMethods : List TsMethodDeclaration
  constructors : List TsConstructorDeclaration

/-- A source file (`getEnums()`, `getClasses()`). -/
structure TsSourceFile where
  enums : List TsEnumDeclaration
  classes : List TsClassDeclaration

/-- Embeds `convertParameter`: normalized name plus lowered type. -/
def convertParameter (p : TsParameterDeclaration) : MethodParameter × List String :=
  let n := nameToKS p.name
  let t := convertTsType p.type
  (⟨n.1, t.1⟩, n.2 ++ t.2)

/-- Lowers a parameter list
(`getParameters().map(tsParam => this.convertParameter(tsParam))`). -/
def convertParameterList : List TsParameterDeclaration → List MethodParameter × List String
  | [] => ([], [])
  | p :: ps =>
    let x := convertParameter p
    let xs := convertParameterList ps
    (x.1 :: xs.1, x.2 ++ xs.2)

/-- One iteration of the field loop: the map key is the normalized
property name; visibility maps `public`/`protected` and defaults to
private; the initializer text is captured verbatim. -/
def convertProperty (p : TsPropertyDeclaration) : (String × Field) × List String :=
  let key := nameToKS p.name
  let ty := convertTsType p.type
  ((key.1,
    { type := ty.1
      visibility :=
        if p.scope = "public" then .Public
        else if p.scope = "protected" then .Protected
        else .Private
      defaultValue := p.initializerText }), key.2 ++ ty.2)

/-- The field loop of `createSchemaFromSourceFile`: builds the
`fields` map, skipping members that fail the `instanceof` filter. -/
def buildFields (acc : List (String × Field)) :
    List TsPropertyDeclaration → List (String × Field) × List String
  | [] => (acc, [])
  | p :: ps =>
    if p.isPropertyOrParameterDecl then
      let f := convertProperty p
      let rest := buildFields (mapSet acc f.1.1 f.1.2) ps
      (rest.1, f.2 ++ rest.2)
    else
      buildFields acc ps

/-- One iteration of the method loop: normalized name key, lowered
return type, parameters and body.  An absent body crashes on
`getBody().compilerNode`. -/
def convertMethod (m : TsMethodDeclaration) : Except String ((String × Method) × List String) :=
  let key := nameToKS m.name
  let ret := convertTsType m.returnType
  let ps := convertParameterList m.parameters
  match m.body with
  | none => .error "TypeError: cannot read compilerNode of undefined method body"
  | some b =>
    match convertBlock b with
    | .error e => .error e
    | .ok bc => .ok ((key.1, ⟨ret.1, ps.1, bc.1⟩), key.2 ++ ret.2 ++ ps.2 ++ bc.2)

/-- The method loop of `createSchemaFromSourceFile`. -/
def buildMethods (acc : List (String × Method)) :
    List TsMethodDeclaration → Except String (List (String × Method) × List String)
  | [] => .ok (acc, [])
  | m :: ms =>
    match convertMethod m with
    | .error e => .error e
    | .ok r =>
      match buildMethods (mapSet acc r.1.1 r.1.2) ms with
      | .error e => .error e
      | .ok rest => .ok (rest.1, r.2 ++ rest.2)

/-- The constructor entry built from the FIRST declared constructor:
parameters and body are lowered with the same `convertParameterList`
and `convertBlock` used for methods.  An absent body crashes on
`getBody().compilerNode`. -/
def convertConstructor (ct : TsConstructorDeclaration) : Except String (Constructor × List String) :=
  let ps := convertParameterList ct.parameters
  match ct.body with
  | none => .error "TypeError: cannot read compilerNode of undefined constructor body"
  | some b =>
    match convertBlock b with
    | .error e => .error e
    | .ok bc => .ok (⟨ps.1, bc.1⟩, ps.2 ++ bc.2)

/-- One iteration of the class loop of `createSchemaFromSourceFile`:
the `constructor` entry is set only when `getConstructors()` is
nonempty, and only from its first element. -/
def convertClass (c : TsClassDeclaration) : Except String ((String × Class) × List String) :=
  let key := nameToKS c.name
  let fs := buildFields [] c.instanceProperties
  match buildMethods [] c.instanceMethods with
  | .error e => .error e
  | .ok ms =>
    match c.constructors with
    | [] => .ok ((key.1, ⟨fs.1, ms.1, none⟩), key.2 ++ fs.2 ++ ms.2)
    | ct :: _ =>
      match convertConstructor ct with
      | .error e => .error e
      | .ok cc => .ok ((key.1, ⟨fs.1, ms.1, some cc.1⟩), key.2 ++ fs.2 ++ ms.2 ++ cc.2)

/-- Lowers the member list of an enum
(`getMembers().map(m => ({ name: this.nameToKS(m.getName()) }))`). -/
def convertEnumMemberList : List TsEnumMember → List EnumValue × List String
  | [] => ([], [])
  | m :: ms =>
    let n := nameToKS m.name
    let ns := convertEnumMemberList ms
    (⟨n.1⟩ :: ns.1, n.2 ++ ns.2)

/-- One iteration of the enum loop of `createSchemaFromSourceFile`. -/
def convertEnum (e : TsEnumDeclaration) : (String × Enum) × List String :=
  let key := nameToKS e.name
  let vs := convertEnumMemberList e.members
  ((key.1, ⟨vs.1⟩), key.2 ++ vs.2)

/-- The enum loop of `createSchemaFromSourceFile`. -/
def buildEnums (acc : List (String × Enum)) :
    List TsEnumDeclaration → List (String × Enum) × List String
  | [] => (acc, [])
  | e :: es =>
    let r := convertEnum e
    let rest := buildEnums (mapSet acc r.1.1 r.1.2) es
    (rest.1, r.2 ++ rest.2)

/-- The class loop of `createSchemaFromSourceFile`. -/
def buildClasses (acc : List (String × Class)) :
    List TsClassDeclaration → Except String (List (String × Class) × List String)
  | [] => .ok (acc, [])
  | c :: cs =>
    match convertClass c with
    | .error e => .error e
    | .ok r =>
      match buildClasses (mapSet acc r.1.1 r.1.2) cs with
      | .error e => .error e
      | .ok rest => .ok (rest.1, r.2 ++ rest.2)

/-- Embeds `createSchemaFromSourceFile`: iterates the enums, then the
classes, of one resolved source file. -/
def createSchemaFromSourceFile (f : TsSourceFile) : Except String (SchemaFile × List String) :=
  let es := buildEnums [] f.enums
  match buildClasses [] f.classes with
  | .error e => .error e
  | .ok cs => .ok (⟨es.1, cs.1⟩, es.2 ++ cs.2)

/-! ## Character facts used by the normalizer proofs -/

theorem char_le_iff (c d : Char) : c ≤ d ↔ c.toNat ≤ d.toNat := Iff.rfl

theorem toLower_toNat (c : Char) (h1 : 65 ≤ c.toNat) (h2 : c.toNat ≤ 90) :
    c.toLower.toNat = c.toNat + 32 := by
  have hv : (c.toNat + 32).isValidChar := Or.inl (by omega)
  unfold Char.toLower
  rw [if_pos ⟨h1, h2⟩, Char.ofNat, dif_pos hv]
  rfl

theorem isUpperAZ_iff (c : Char) : isUpperAZ c ↔ 65 ≤ c.toNat ∧ c.toNat ≤ 90 := by
  unfold isUpperAZ
  rw [char_le_iff, char_le_iff]
  have hA : (65 : Nat) = 'A'.toNat := rfl
  have hZ : (90 : Nat) = 'Z'.toNat := rfl
  omega

theorem isPassThrough_iff (c : Char) :
    isPassThrough c ↔ (97 ≤ c.toNat ∧ c.toNat ≤ 122) ∨ c.toNat = 95 ∨
      (48 ≤ c.toNat ∧ c.toNat ≤ 57) := by
  unfold isPassThrough
  rw [char_le_iff, char_le_iff, char_le_iff, char_le_iff]
  constructor
  · rintro (h | h | h)
    · exact Or.inl h
    · subst h; exact Or.inr (Or.inl rfl)
    · exact Or.inr (Or.inr h)
  · rintro (h | h | h)
    · exact Or.inl h
    · refine Or.inr (Or.inl ?_)
      have h2 := Char.ofNat_toNat c
      rw [h] at h2
      rw [← h2]
    · exact Or.inr (Or.inr h)

theorem passThrough_not_upper (c : Char) (h : isPassThrough c) : ¬ isUpperAZ c := by
  rw [isPassThrough_iff] at h
  rw [isUpperAZ_iff]
  omega

theorem toLower_of_upper (c : Char) (h : isUpperAZ c) :
    isPassThrough c.toLower ∧ ¬ isUpperAZ c.toLower := by
  rw [isUpperAZ_iff] at h
  have ht := toLower_toNat c h.1 h.2
  constructor
  · rw [isPassThrough_iff]; omega
  · rw [isUpperAZ_iff]; omega

theorem toLower_self_of_passThrough (c : Char) (h : isPassThrough c) : c.toLower = c := by
  rw [isPassThrough_iff] at h
  unfold Char.toLower
  rw [if_neg (by omega)]

/-! ## The specification text of the normalizer

A second definition of the normalization walk, written from the
specification sentence alone ("an uppercase letter is lowercased and,
unless it starts the result, preceded by a separator; lowercase
letters, digits, and a permitted separator character pass through
unchanged; any other character is dropped and reported as a
diagnostic"), to compare `nameToKS` against. -/

/-- Specification-side walk: `started` records whether the result is
still empty (the "unless it starts the result" condition). -/
def normalizeSpecGo : Bool → List Char → List Char
  | _, [] => []
  | started, c :: cs =>
    if isUpperAZ c then (if started then ['_'] else []) ++ [c.toLower] ++ normalizeSpecGo true cs
    else if isPassThrough c then c :: normalizeSpecGo true cs
    else normalizeSpecGo started cs

/-- Specification-side normalized name. -/
def normalizeSpec (name : String) : String := String.mk (normalizeSpecGo false name.toList)

/-- Specification-side diagnostics: one `Invalid character` report per
dropped character, in order. -/
def droppedCharDiags (orig : String) (cs : List Char) : List String :=
  (cs.filter (fun c => !(decide (isUpperAZ c) || decide (isPassThrough c)))).map
    (fun c => invalidCharMsg c orig)

theorem droppedCharDiags_nil (orig : String) : droppedCharDiags orig [] = [] := rfl

theorem droppedCharDiags_cons_kept (orig : String) (c : Char) (cs : List Char)
    (h : isUpperAZ c ∨ isPassThrough c) :
    droppedCharDiags orig (c :: cs) = droppedCharDiags orig cs := by
  unfold droppedCharDiags
  rcases h with h | h <;> simp [h]

theorem droppedCharDiags_cons_dropped (orig : String) (c : Char) (cs : List Char)
    (h1 : ¬ isUpperAZ c) (h2 : ¬ isPassThrough c) :
    droppedCharDiags orig (c :: cs) = invalidCharMsg c orig :: droppedCharDiags orig cs := by
  unfold droppedCharDiags
  simp [h1, h2]

/-- The loop of `nameToKS` computes exactly the specification-side
walk appended to the accumulated result, and the specification-side
diagnostics appended to the accumulated diagnostics. -/
theorem nameToKSAux_eq (orig : String) (cs : List Char) :
    ∀ (res : List Char) (ds : List String),
      nameToKSAux orig cs res ds
        = (res ++ normalizeSpecGo (!res.isEmpty) cs, ds ++ droppedCharDiags orig cs) := by
  induction cs with
  | nil =>
    intro res ds
    simp [nameToKSAux, normalizeSpecGo, droppedCharDiags_nil]
  | cons c cs ih =>
    intro res ds
    by_cases hu : isUpperAZ c
    · rw [nameToKSAux, if_pos hu, ih,
        droppedCharDiags_cons_kept orig c cs (Or.inl hu)]
      cases res with
      | nil => simp [normalizeSpecGo, hu]
      | cons r rs => simp [normalizeSpecGo, hu]
    · by_cases hp : isPassThrough c
      · rw [nameToKSAux, if_neg hu, if_pos hp, ih,
          droppedCharDiags_cons_kept orig c cs (Or.inr hp)]
        cases res with
        | nil => simp [normalizeSpecGo, hu, hp]
        | cons r rs => simp [normalizeSpecGo, hu, hp]
      · rw [nameToKSAux, if_neg hu, if_neg hp, ih,
          droppedCharDiags_cons_dropped orig c cs hu hp]
        simp [normalizeSpecGo, hu, hp]

/-- Top-level form of `nameToKSAux_eq`. -/
theorem nameToKS_eq_spec (name : String) :
    nameToKS name = (normalizeSpec name, droppedCharDiags name name.toList) := by
  unfold nameToKS normalizeSpec
  rw [nameToKSAux_eq]
  simp

/-- Every character emitted by the specification-side walk passes the
pass-through test and fails the uppercase test. -/
theorem mem_normalizeSpecGo (cs : List Char) :
    ∀ (started : Bool), ∀ c ∈ normalizeSpecGo started cs, isPassThrough c ∧ ¬ isUpperAZ c := by
  induction cs with
  | nil => intro started c hc; simp [normalizeSpecGo] at hc
  | cons d ds ih =>
    intro started c hc
    by_cases hu : isUpperAZ d
    · rw [normalizeSpecGo, if_pos hu] at hc
      simp only [List.append_assoc, List.mem_append, List.singleton_append,
        List.mem_cons] at hc
      rcases hc with hc | hc
      · cases started with
        | true =>
          simp only [if_pos] at hc
          rcases List.mem_singleton.mp hc with rfl
          exact ⟨by decide, by decide⟩
        | false => simp at hc
      · rcases hc with rfl | hc
        · exact toLower_of_upper d hu
        · exact ih true c hc
    · by_cases hp : isPassThrough d
      · rw [normalizeSpecGo, if_neg hu, if_pos hp] at hc
        rcases List.mem_cons.mp hc with rfl | hc
        · exact ⟨hp, passThrough_not_upper c hp⟩
        · exact ih true c hc
      · rw [normalizeSpecGo, if_neg hu, if_neg hp] at hc
        exact ih started c hc

/-- On input consisting only of pass-through, non-uppercase characters
the loop of `nameToKS` copies its input and logs nothing. -/
theorem nameToKSAux_all_pass (orig : String) (cs : List Char)
    (h : ∀ c ∈ cs, isPassThrough c ∧ ¬ isUpperAZ c) :
    ∀ (res : List Char) (ds : List String),
      nameToKSAux orig cs res ds = (res ++ cs, ds) := by
  induction cs with
  | nil => intro res ds; simp [nameToKSAux]
  | cons c cs ih =>
    intro res ds
    have hc := h c (List.mem_cons_self c cs)
    rw [nameToKSAux, if_neg hc.2, if_pos hc.1,
      ih (fun d hd => h d (List.mem_cons_of_mem c hd))]
    simp

/-- C2: name normalization is idempotent.  For every input string `x`,
running `nameToKS` on the name component of `nameToKS x` returns that
name unchanged (and logs no diagnostic), so
`normalize (normalize x) = normalize x`. -/
theorem claim_C2_normalize_idempotent (x : String) :
    nameToKS ((nameToKS x).1) = ((nameToKS x).1, []) ∧
    (nameToKS ((nameToKS x).1)).1 = (nameToKS x).1 := by
  have hspec : (nameToKS x).1 = String.mk (normalizeSpecGo false x.toList) := by
    rw [nameToKS_eq_spec]
    rfl
  have hall : ∀ c ∈ normalizeSpecGo false x.toList, isPassThrough c ∧ ¬ isUpperAZ c :=
    fun c hc => mem_normalizeSpecGo x.toList false c hc
  have hfix : nameToKS (String.mk (normalizeSpecGo false x.toList))
      = (String.mk (normalizeSpecGo false x.toList), []) := by
    unfold nameToKS
    rw [show (String.mk (normalizeSpecGo false x.toList)).toList
        = normalizeSpecGo false x.toList from rfl]
    rw [nameToKSAux_all_pass _ _ hall]
    simp
  refine ⟨?_, ?_⟩
  · rw [hspec]; exact hfix
  · rw [hspec, hfix]

/-- C2 witness: idempotence evaluated at the concrete name `MyClass`. -/
theorem claim_C2_witness :
    nameToKS ((nameToKS "MyClass").1) = ((nameToKS "MyClass").1, []) ∧
    (nameToKS ((nameToKS "MyClass").1)).1 = (nameToKS "MyClass").1 :=
  claim_C2_normalize_idempotent "MyClass"

/-- C3: `nameToKS` walks the input character by character — an
uppercase letter is lowercased and, unless it begins the result,
preceded by an underscore; lowercase letters, digits and underscore
pass through; any other character is dropped with a diagnostic
(`normalizeSpec`/`droppedCharDiags` transcribe that description) —
and the three example names normalize as the specification states. -/
theorem claim_C3_normalize_walk :
    (∀ name : String, nameToKS name = (normalizeSpec name, droppedCharDiags name name.toList)) ∧
    nameToKS "MyClass" = ("my_class", []) ∧
    nameToKS "fieldName" = ("field_name", []) ∧
    nameToKS "thing2" = ("thing2", []) :=
  ⟨nameToKS_eq_spec, by decide, by decide, by decide⟩

/-- C1 counterexample: at the concrete unsupported statement kind
`DebuggerStatement`, `convertStatement` reports the diagnostic but
returns the one-entry sequence `[null]` — not an empty sequence — so
an enclosing block's statement list grows by one (null) entry.  This
refutes the claim that the statement contributes zero entries. -/
theorem claim_C1_counterexample :
    convertStatement (.other "DebuggerStatement")
      = .ok ([none], [unexpectedStatementMsg "DebuggerStatement"]) ∧
    convertBlock (.blockNode [.other "DebuggerStatement"])
      = .ok (⟨[none]⟩, [unexpectedStatementMsg "DebuggerStatement"]) ∧
    ([(none : Option Statement)]).length = 1 := by
  refine ⟨?_, ?_, rfl⟩
  · simp [convertStatement]
  · simp [convertStatement, convertStatementList, convertBlock, flattenArray]

/-- C1 amended: for every statement kind outside the supported
grammar, `convertStatement` reports a diagnostic and returns a
one-entry sequence containing a null placeholder (JavaScript
`[null]`, from `return ksStmts || [ksStmt]` with both still null), so
the enclosing block's statement list gains exactly one null entry. -/
theorem claim_C1_amended (kindName : String) :
    convertStatement (.other kindName) = .ok ([none], [unexpectedStatementMsg kindName]) := by
  simp [convertStatement]

/-- C5: member access and index access lower to the same
`PropertyAccess` shape, with object and property each recursively
lowered, and `a.b[c]` produces the nested shape the specification
gives. -/
theorem claim_C5_property_access_unified :
    (∀ a b : TsExpr, convertExpression (.PropertyAccessExpression a b)
        = (some (.PropertyAccess (convertExpression a).1 (convertExpression b).1),
           (convertExpression a).2 ++ (convertExpression b).2)) ∧
    (∀ a b : TsExpr, convertExpression (.ElementAccessExpression a b)
        = (some (.PropertyAccess (convertExpression a).1 (convertExpression b).1),
           (convertExpression a).2 ++ (convertExpression b).2)) ∧
    (∀ a b : TsExpr, convertExpression (.PropertyAccessExpression a b)
        = convertExpression (.ElementAccessExpression a b)) ∧
    convertExpression (.ElementAccessExpression
        (.PropertyAccessExpression (.Identifier "a") (.Identifier "b")) (.Identifier "c"))
      = (some (.PropertyAccess
          (some (.PropertyAccess (some (.Identifier "a")) (some (.Identifier "b"))))
          (some (.Identifier "c"))), []) := by
  refine ⟨fun a b => by simp [convertExpression],
          fun a b => by simp [convertExpression],
          fun a b => by simp [convertExpression],
          by simp [convertExpression]⟩

/-- C6: an expression node whose kind is outside the grammar and is
neither the `this` nor the `super` keyword lowers to `null` with
exactly one diagnostic, and a sibling expression in the same
enclosing expression still lowers exactly as it would alone. -/
theorem claim_C6_unexpected_expression (kindName : String)
    (h1 : toLowerCase kindName ≠ "thiskeyword")
    (h2 : toLowerCase kindName ≠ "superkeyword") :
    convertExpression (.other kindName) = (none, [unexpectedExpressionMsg kindName]) ∧
    (∀ (op : String) (r : TsExpr),
      convertExpression (.BinaryExpression (.other kindName) op r)
        = (some (.Binary none (convertExpression r).1 op),
           unexpectedExpressionMsg kindName :: (convertExpression r).2)) := by
  have e1 : ("this" ++ "keyword" : String) = "thiskeyword" := rfl
  have e2 : ("super" ++ "keyword" : String) = "superkeyword" := rfl
  have hfind : (["this", "super"].find?
      (fun x => toLowerCase kindName = x ++ "keyword")) = none := by
    simp [List.find?, e1, e2, h1, h2]
  constructor
  · simp [convertExpression, hfind]
  · intro op r
    simp [convertExpression, hfind]

/-- C6 witness: evaluated at the concrete unsupported kind
`SpreadElement`. -/
theorem claim_C6_witness :
    toLowerCase "SpreadElement" ≠ "thiskeyword" ∧
    toLowerCase "SpreadElement" ≠ "superkeyword" ∧
    convertExpression (.other "SpreadElement")
      = (none, [unexpectedExpressionMsg "SpreadElement"]) :=
  ⟨by decide, by decide,
   (claim_C6_unexpected_expression "SpreadElement" (by decide) (by decide)).1⟩

/-- Helper: the generic-argument loop lowers each argument with
`convertTsType`, in declared order. -/
theorem convertTsTypeList_fst (args : List TsType) :
    (convertTsTypeList args).1 = args.map (fun a => (convertTsType a).1) := by
  induction args with
  | nil => simp [convertTsTypeList]
  | cons a as ih => simp [convertTsTypeList, ih]

/-- C4: `convertTsType` maps the canonical names `number`, `string`,
`boolean` and `void` to the corresponding primitive variants; the
name `Array` to the `Array` variant with no class name; any other
name to the `Class` variant with the normalized class name; generic
arguments are recursively lowered and attached in declared order to
the `Array`/`Class` variant; and the two specification examples
(generic array of strings, `Foo` of `Bar`) lower as stated. -/
theorem claim_C4_type_lowering :
    (∀ ta, convertTsType (.mk "number" ta) = (⟨.Int32, none, none⟩, [])) ∧
    (∀ ta, convertTsType (.mk "string" ta) = (⟨.String, none, none⟩, [])) ∧
    (∀ ta, convertTsType (.mk "boolean" ta) = (⟨.Boolean, none, none⟩, [])) ∧
    (∀ ta, convertTsType (.mk "void" ta) = (⟨.Void, none, none⟩, [])) ∧
    convertTsType (.mk "Array" none) = (⟨.Array, none, none⟩, []) ∧
    (∀ args, convertTsType (.mk "Array" (some args))
        = (⟨.Array, none, some (convertTsTypeList args).1⟩, (convertTsTypeList args).2)) ∧
    (∀ name, name ≠ "number" → name ≠ "string" → name ≠ "boolean" → name ≠ "void" →
      name ≠ "Array" →
      convertTsType (.mk name none)
          = (⟨.Class, some (nameToKS name).1, none⟩, (nameToKS name).2) ∧
      ∀ args, convertTsType (.mk name (some args))
          = (⟨.Class, some (nameToKS name).1, some (convertTsTypeList args).1⟩,
             (nameToKS name).2 ++ (convertTsTypeList args).2)) ∧
    (∀ args, (convertTsTypeList args).1 = args.map (fun a => (convertTsType a).1)) ∧
    convertTsType (.mk "Array" (some [.mk "string" none]))
        = (⟨.Array, none, some [⟨.String, none, none⟩]⟩, []) ∧
    convertTsType (.mk "Foo" (some [.mk "Bar" none]))
        = (⟨.Class, some "foo", some [⟨.Class, some "bar", none⟩]⟩, []) := by
  refine ⟨fun ta => by simp [convertTsType],
          fun ta => by simp [convertTsType],
          fun ta => by simp [convertTsType],
          fun ta => by simp [convertTsType],
          by simp [convertTsType],
          fun args => by simp [convertTsType],
          ?_,
          convertTsTypeList_fst,
          by simp +decide [convertTsType, convertTsTypeList],
          by simp +decide [convertTsType, convertTsTypeList]⟩
  intro name h1 h2 h3 h4 h5
  constructor
  · simp [convertTsType, h1, h2, h3, h4, h5]
  · intro args
    simp [convertTsType, h1, h2, h3, h4, h5]

/-- C4 witness: the other-name branch evaluated at the concrete
resolved type `Foo` of `Bar`. -/
theorem claim_C4_witness :
    ("Foo" : String) ≠ "number" ∧ ("Foo" : String) ≠ "Array" ∧
    convertTsType (.mk "Foo" none)
      = (⟨.Class, some (nameToKS "Foo").1, none⟩, (nameToKS "Foo").2) :=
  ⟨by decide, by decide,
   (claim_C4_type_lowering.2.2.2.2.2.2.1 "Foo" (by decide) (by decide) (by decide)
      (by decide) (by decide)).1⟩

/-- Helper: the declarator loop of a variable statement produces one
`Variable` statement per declarator, in order. -/
theorem convertVariableDeclarationList_fst (decls : List TsVariableDeclaration) :
    (convertVariableDeclarationList decls).1
      = decls.map (fun d => some (Statement.Variable d.name (convertExpressionOpt d.initializer).1)) := by
  induction decls with
  | nil => simp [convertVariableDeclarationList]
  | cons d ds ih => simp [convertVariableDeclarationList, convertVariableDeclaration, ih]

/-- C7: a variable statement with at least one declarator lowers to
exactly one `Variable` statement per declarator, in declaration
order, and the specification example `let a = 1, b = 2;` inside a
block yields the two sibling `Variable` statements in order. -/
theorem claim_C7_variable_statement (decls : List TsVariableDeclaration)
    (_h : 1 ≤ decls.length) :
    convertStatement (.VariableStatement decls) = .ok (convertVariableDeclarationList decls) ∧
    (convertVariableDeclarationList decls).1
      = decls.map (fun d => some (Statement.Variable d.name (convertExpressionOpt d.initializer).1)) ∧
    (convertVariableDeclarationList decls).1.length = decls.length ∧
    convertBlock (.blockNode [.VariableStatement
        [⟨"a", some (.NumericLiteral "1")⟩, ⟨"b", some (.NumericLiteral "2")⟩]])
      = .ok (⟨[some (.Variable "a" (some (.Literal "numeric" "1"))),
               some (.Variable "b" (some (.Literal "numeric" "2")))]⟩, []) := by
  refine ⟨by simp [convertStatement], convertVariableDeclarationList_fst decls, ?_, ?_⟩
  · rw [convertVariableDeclarationList_fst]
    simp
  · simp [convertBlock, convertStatementList, convertStatement,
      convertVariableDeclarationList, convertVariableDeclaration, convertExpressionOpt,
      convertExpression, flattenArray]

/-- C7 witness: evaluated at the concrete two-declarator list of
`let a = 1, b = 2;`. -/
theorem claim_C7_witness :
    1 ≤ ([⟨"a", some (.NumericLiteral "1")⟩, ⟨"b", some (.NumericLiteral "2")⟩] :
        List TsVariableDeclaration).length ∧
    (convertVariableDeclarationList
        [⟨"a", some (.NumericLiteral "1")⟩, ⟨"b", some (.NumericLiteral "2")⟩]).1.length
      = ([⟨"a", some (.NumericLiteral "1")⟩, ⟨"b", some (.NumericLiteral "2")⟩] :
        List TsVariableDeclaration).length :=
  ⟨by decide,
   (claim_C7_variable_statement
      [⟨"a", some (.NumericLiteral "1")⟩, ⟨"b", some (.NumericLiteral "2")⟩]
      (by decide)).2.2.1⟩

/-- Helper: when every statement of a sequence lowers successfully,
the sequence loop returns the per-statement result sequences in order
and the concatenation of their diagnostics. -/
theorem convertStatementList_forall2 (ss : List TsStatement)
    (results : List (List (Option Statement) × List String))
    (h : List.Forall₂ (fun s r => convertStatement s = .ok r) ss results) :
    convertStatementList ss = .ok (results.map Prod.fst, (results.map Prod.snd).flatten) := by
  induction h with
  | nil => simp [convertStatementList]
  | cons hsr _ ih => simp [convertStatementList, hsr, ih]

/-- C8: `convertBlock` normalizes both body forms into a `Block`: a
bare statement's (possibly multi-entry) lowered sequence becomes the
statement list directly, and a brace-delimited sequence is lowered
statement by statement and the per-statement sequences are flattened,
in order, into one list. -/
theorem claim_C8_block_normalization :
    (∀ (s : TsStatement) (r : List (Option Statement)) (ds : List String),
      convertStatement s = .ok (r, ds) →
      convertBlock (.bareStatement s) = .ok (⟨r⟩, ds)) ∧
    (∀ (ss : List TsStatement) (results : List (List (Option Statement) × List String)),
      List.Forall₂ (fun s r => convertStatement s = .ok r) ss results →
      convertBlock (.blockNode ss)
        = .ok (⟨flattenArray (results.map Prod.fst)⟩,
               flattenArray (results.map Prod.snd))) := by
  constructor
  · intro s r ds h
    simp [convertBlock, h]
  · intro ss results h
    simp [convertBlock, convertStatementList_forall2 ss results h, flattenArray]

/-- C8 witness: the bare form wraps the two-entry sequence of
`let a = 1, b = 2;` directly, and the sequence form flattens a
two-statement block, both evaluated concretely. -/
theorem claim_C8_witness :
    convertBlock (.bareStatement (.VariableStatement [⟨"a", none⟩, ⟨"b", none⟩]))
      = .ok (⟨[some (.Variable "a" none), some (.Variable "b" none)]⟩, []) ∧
    convertBlock (.blockNode [.VariableStatement [⟨"a", none⟩, ⟨"b", none⟩],
        .ExpressionStatement (.Identifier "x")])
      = .ok (⟨[some (.Variable "a" none), some (.Variable "b" none),
               some (.ExpressionStmt (some (.Identifier "x")))]⟩, []) :=
  ⟨claim_C8_block_normalization.1 _ _ _
     (by simp [convertStatement, convertVariableDeclarationList,
        convertVariableDeclaration, convertExpressionOpt]),
   claim_C8_block_normalization.2
     [.VariableStatement [⟨"a", none⟩, ⟨"b", none⟩],
      .ExpressionStatement (.Identifier "x")]
     [([some (.Variable "a" none), some (.Variable "b" none)], []),
      ([some (.ExpressionStmt (some (.Identifier "x")))], [])]
     (by
        refine List.Forall₂.cons ?_ (List.Forall₂.cons ?_ List.Forall₂.nil)
        · simp [convertStatement, convertVariableDeclarationList,
            convertVariableDeclaration, convertExpressionOpt]
        · simp [convertStatement, convertExpression])⟩

/-- C9: the code crashes on a `for` statement with an absent
initializer.  `convertInitializer` reads `initializer.kind` without
the `undefined` guard its sibling functions have, so lowering
`for (; cond; inc) body` raises a `TypeError` and aborts the whole
conversion instead of producing a `For` statement with no item
variable; the second conjunct evaluates the concrete failing input
`for (; i < 10; i++) { }`. -/
theorem claim_C9_for_without_initializer_crashes :
    (∀ (cond inc : Option TsExpr) (body : TsBlockLike),
      convertStatement (.ForStatement none cond inc body)
        = .error "TypeError: cannot read initializer.kind of undefined") ∧
    convertStatement (.ForStatement none
        (some (.BinaryExpression (.Identifier "i") "<" (.NumericLiteral "10")))
        (some (.PostfixUnaryExpression .PlusPlusToken (.Identifier "i")))
        (.blockNode []))
      = .error "TypeError: cannot read initializer.kind of undefined" := by
  constructor
  · intro cond inc body
    simp [convertStatement, convertInitializer]
  · simp [convertStatement, convertInitializer]

/-- Helper: `convertClass` only ever reads the head of the
constructor list, so any constructors after the first are ignored. -/
theorem convertClass_constructors_cons (c : TsClassDeclaration)
    (ct : TsConstructorDeclaration) (rest : List TsConstructorDeclaration) :
    convertClass {c with constructors := ct :: rest}
      = convertClass {c with constructors := [ct]} := by
  simp [convertClass]

/-- C10: a class with no declared constructor gets no `constructor`
entry; with one or more declared constructors, exactly the first is
retained (the rest change nothing, also through
`createSchemaFromSourceFile`), and its entry lowers the parameters
and body with the same `convertParameterList`/`convertBlock` used for
methods. -/
theorem claim_C10_first_constructor :
    (∀ (c : TsClassDeclaration) (k : String) (cls : Class) (ds : List String),
      c.constructors = [] → convertClass c = .ok ((k, cls), ds) →
      cls.constructor = none) ∧
    (∀ (c : TsClassDeclaration) (ct : TsConstructorDeclaration)
        (rest : List TsConstructorDeclaration),
      convertClass {c with constructors := ct :: rest}
        = convertClass {c with constructors := [ct]}) ∧
    (∀ (c : TsClassDeclaration) (ct : TsConstructorDeclaration)
        (rest : List TsConstructorDeclaration) (k : String) (cls : Class) (ds : List String),
      c.constructors = ct :: rest → convertClass c = .ok ((k, cls), ds) →
      ∃ cc dsc, convertConstructor ct = .ok (cc, dsc) ∧ cls.constructor = some cc) ∧
    (∀ (ct : TsConstructorDeclaration) (b : TsBlockLike) (bc : Block) (dsb : List String),
      ct.body = some b → convertBlock b = .ok (bc, dsb) →
      convertConstructor ct
        = .ok (⟨(convertParameterList ct.parameters).1, bc⟩,
               (convertParameterList ct.parameters).2 ++ dsb)) ∧
    (∀ (enums : List TsEnumDeclaration) (c : TsClassDeclaration)
        (ct : TsConstructorDeclaration) (rest : List TsConstructorDeclaration),
      createSchemaFromSourceFile ⟨enums, [{c with constructors := ct :: rest}]⟩
        = createSchemaFromSourceFile ⟨enums, [{c with constructors := [ct]}]⟩) := by
  refine ⟨?_, convertClass_constructors_cons, ?_, ?_, ?_⟩
  · intro c k cls ds hc h
    cases hm : buildMethods [] c.instanceMethods with
    | error e => simp [convertClass, hm] at h
    | ok ms =>
      simp [convertClass, hm, hc] at h
      obtain ⟨⟨-, hcls⟩, -⟩ := h
      rw [← hcls]
  · intro c ct rest k cls ds hc h
    cases hm : buildMethods [] c.instanceMethods with
    | error e => simp [convertClass, hm] at h
    | ok ms =>
      cases hct : convertConstructor ct with
      | error e => simp [convertClass, hm, hc, hct] at h
      | ok cc =>
        simp [convertClass, hm, hc, hct] at h
        obtain ⟨⟨-, hcls⟩, -⟩ := h
        exact ⟨cc.1, cc.2, by simp [hct], by rw [← hcls]⟩
  · intro ct b bc dsb hb h
    simp [convertConstructor, hb, h]
  · intro enums c ct rest
    simp [createSchemaFromSourceFile, buildClasses, convertClass_constructors_cons]

/-- C10 witness: a concrete class with two declared constructors; the
retained entry is the lowered first constructor. -/
theorem claim_C10_witness :
    ∃ cc dsc,
      convertConstructor (⟨[], some (.blockNode [])⟩ : TsConstructorDeclaration)
        = .ok (cc, dsc) ∧
      (Class.mk [] [] (some ⟨[], ⟨[]⟩⟩)).constructor = some cc :=
  claim_C10_first_constructor.2.2.1
    ⟨"Foo", [], [],
      [⟨[], some (.blockNode [])⟩, ⟨[⟨"x", .mk "number" none⟩], some (.blockNode [])⟩]⟩
    ⟨[], some (.blockNode [])⟩
    [⟨[⟨"x", .mk "number" none⟩], some (.blockNode [])⟩]
    "foo" ⟨[], [], some ⟨[], ⟨[]⟩⟩⟩ [] rfl
    (by simp +decide [convertClass, buildFields, buildMethods, convertConstructor,
      convertParameterList, convertBlock, convertStatementList, flattenArray,
      nameToKS, nameToKSAux])

end OneLang
